import Mathlib

/-!
Verification of the partition-planning and task-execution core of the
PDF splitter (`pdf_splitter.py`).  The Python functions are shallowly
embedded as executable Lean definitions: pure helpers become Lean
functions, the stateful executor becomes explicit state passing over a
journal-style filesystem model, and the fallible validator returns
`Except`.  Machine integers are modelled by `Nat`/`Int` (Python ints are
unbounded) and the source's float division by exact rational arithmetic
over `ℚ`.
-/

/-! ## Name sanitizer (`sanitize_filename`, pdf_splitter.py lines 32-36) -/

/-- The characters removed by the regex `[<>:"/\\|?*]` in line 34. -/
def illegalChars : List Char := ['<', '>', ':', '"', '/', '\\', '|', '?', '*']

/-- Embeds `re.sub(r'[<>:"/\\|?*]', '_', name)`: every illegal character
is replaced by an underscore. -/
def replaceIllegalChars (cs : List Char) : List Char :=
  cs.map (fun c => if c ∈ illegalChars then '_' else c)

/-- The characters stripped from both ends by `name.strip(' .')`. -/
def isStripChar (c : Char) : Bool := c == ' ' || c == '.'

/-- Embeds Python `str.strip(' .')`: drop the strip characters from both
ends of the character list. -/
def stripEnds (cs : List Char) : List Char :=
  ((cs.dropWhile isStripChar).reverse.dropWhile isStripChar).reverse

/-- The fallback literal returned when the sanitized name is empty
(line 36: `return name if name else '未命名'`). -/
def fallbackName : String := "未命名"

/-- Embeds `sanitize_filename` (lines 32-36). -/
def sanitize_filename (s : String) : String :=
  let cleaned := stripEnds (replaceIllegalChars s.data)
  if cleaned.isEmpty then fallbackName else String.mk cleaned

/-! ## Decimal rendering used by f-strings (`f"{idx+1:02d}"`, `f"第{i+1}部分..."`) -/

/-- The ASCII digit character for a value below ten. -/
def digitChar48 (n : Nat) : Char := Char.ofNat (48 + n)

/-- Decimal digits of `n`, least significant first.  The first argument
is fuel; `n + 1` is always enough. -/
def natDigitsRevAux : Nat → Nat → List Char
  | 0, _ => []
  | fuel + 1, n =>
    if n < 10 then [digitChar48 n]
    else digitChar48 (n % 10) :: natDigitsRevAux fuel (n / 10)

/-- Decimal digits of `n`, least significant first. -/
def natDigitsRev (n : Nat) : List Char := natDigitsRevAux (n + 1) n

/-- Decimal representation of a natural number, embedding Python's
`str`/`format` on a nonnegative int. -/
def natRepr (n : Nat) : String := String.mk (natDigitsRev n).reverse

/-- Decimal representation of an integer. -/
def intRepr (n : Int) : String :=
  if n < 0 then "-" ++ natRepr n.natAbs else natRepr n.natAbs

/-- Embeds the format spec `{k:02d}`: zero-pad the decimal representation
to a minimum width of two. -/
def pad2 (n : Nat) : String := if n < 10 then "0" ++ natRepr n else natRepr n

/-! ## Outline flattener (`_get_chapters`, pdf_splitter.py lines 419-450) -/

/-- A chapter range as built by `_get_chapters` (the dict with keys
`title`, `start`, `end`; `end` is a Lean keyword, hence `end_page`). -/
structure Chapter where
  title : String
  start_page : Int
  end_page : Int
deriving DecidableEq, Repr

/-- The characters CPython's `str.isspace()` accepts (the set
`str.strip()` with no argument removes): the ASCII controls 09-0D,
the separators 1C-1F, space, NEL (85), and the Unicode space
characters A0, 1680, 2000-200A, 2028, 2029, 202F, 205F and 3000. -/
def pyIsSpace (c : Char) : Bool :=
  decide ((0x09 ≤ c.toNat ∧ c.toNat ≤ 0x0D) ∨ (0x1C ≤ c.toNat ∧ c.toNat ≤ 0x1F) ∨
    c.toNat = 0x20 ∨ c.toNat = 0x85 ∨ c.toNat = 0xA0 ∨ c.toNat = 0x1680 ∨
    (0x2000 ≤ c.toNat ∧ c.toNat ≤ 0x200A) ∨ c.toNat = 0x2028 ∨ c.toNat = 0x2029 ∨
    c.toNat = 0x202F ∨ c.toNat = 0x205F ∨ c.toNat = 0x3000)

/-- Embeds Python `str.strip()` with no argument: drop the full Python
whitespace set from both ends. -/
def pyStrip (s : String) : String :=
  String.mk (((s.data.dropWhile pyIsSpace).reverse.dropWhile pyIsSpace).reverse)

/-- The level filter and clamp of lines 426-429: keep entries with
`level <= max_level`, in order, as `(title.strip(), max(1, page))`. -/
def chaptersFiltered (toc : List (Int × String × Int)) (max_level : Int) :
    List (String × Int) :=
  (toc.filter (fun e => e.1 ≤ max_level)).map (fun e => (pyStrip e.2.1, max 1 e.2.2))

/-- Embeds `_get_chapters(self, max_level)` (lines 419-450); `self.total_pages`
and the raw `get_toc()` result are explicit arguments. -/
def _get_chapters (toc : List (Int × String × Int)) (total_pages : Int)
    (max_level : Int) : List Chapter :=
  if toc.isEmpty then []
  else
    let filtered := chaptersFiltered toc max_level
    if filtered.isEmpty then []
    else
      (List.range filtered.length).map (fun i =>
        let p := filtered.getD i ("", 1)
        let e0 : Int :=
          if i + 1 < filtered.length then (filtered.getD (i + 1) ("", 1)).2 - 1
          else total_pages
        { title := p.1, start_page := p.2
          end_page := if e0 < p.2 then p.2 else e0 })

/-! ## Split tasks and the size-based planner
(`_calc_size_split`, pdf_splitter.py lines 495-558) -/

/-- A split task `(start, end, name)` as collected by `_collect_tasks`
and consumed by `_do_split`.  Pages are 1-based. -/
structure SplitTask where
  start_page : Int
  end_page : Int
  name : String
deriving DecidableEq, Repr

/-- The default task name `f"第{idx}部分_第{start}-{end}页"` built by the
size planner (line 536) for the 1-based part index `idx`. -/
def sizeTaskName (idx start stop : Nat) : String :=
  "第" ++ natRepr idx ++ "部分_第" ++ natRepr start ++ "-" ++ natRepr stop ++ "页"

/-- Embeds the planning core of `_calc_size_split` (lines 495-539).
`total_pages` is `len(self.pdf_doc)`, `file_size` is
`os.path.getsize(self.pdf_path)` and `max_bytes` is `max_mb * 1024 * 1024`
in whole bytes; the source's float division is modelled exactly.  Line 528
computes `max(1, int(max_bytes / (file_size / total_pages)))`, whose exact
value is `max 1 (max_bytes * total_pages / file_size)` in integer division
(`size_ppp_eq_floor` below proves this equal to the rational-floor form),
and line 529 computes `-(-total_pages // pages_per_part)`, i.e. ceiling
division.  The UI-only estimated sizes (dropped on line 539) are omitted.
Returns the value stored into `self.size_split_tasks`; the early `return`
on line 525 leaves it empty. -/
def _calc_size_split (total_pages : Nat) (file_size : Nat) (max_bytes : Nat) :
    List SplitTask :=
  if file_size ≤ max_bytes then []
  else
    let pages_per_part : Nat := max 1 (max_bytes * total_pages / file_size)
    let num_parts : Nat := (total_pages + pages_per_part - 1) / pages_per_part
    (List.range num_parts).map (fun i =>
      let start := i * pages_per_part + 1
      let stop := min ((i + 1) * pages_per_part) total_pages
      ⟨(start : Int), (stop : Int), sizeTaskName (i + 1) start stop⟩)

/-! ## Range validator (`_collect_tasks`, custom branch,
pdf_splitter.py lines 651-691) -/

/-- The failure cases of the custom-range validation, each (except
`emptyPlan`) carrying the 1-based row number `i+1` shown in the source's
message `第 {i+1} 行`. -/
inductive ValidationError where
  | missingField (row : Nat)
  | notANumber (row : Nat)
  | outOfRange (row : Nat)
  | invertedRange (row : Nat)
  | exceedsDocument (row : Nat)
  | emptyPlan
deriving DecidableEq, Repr

/-- The 1-based row number a validation error reports, if any. -/
def ValidationError.rowNum : ValidationError → Option Nat
  | .missingField i => some i
  | .notANumber i => some i
  | .outOfRange i => some i
  | .invertedRange i => some i
  | .exceedsDocument i => some i
  | .emptyPlan => none

/-- One raw row of the custom-range table: the texts of the start, end
and name entry widgets. -/
structure RawRow where
  start_text : String
  end_text : String
  name_text : String
deriving DecidableEq, Repr

/-- The code point of DIGIT ZERO of every decimal-digit run in Unicode
category `Nd` (Unicode 15.0, the database CPython uses): each run is ten
consecutive code points with digit values 0-9. -/
def pyDigitBases : List Nat :=
  [0x30, 0x660, 0x6F0, 0x7C0, 0x966, 0x9E6, 0xA66, 0xAE6, 0xB66, 0xBE6,
   0xC66, 0xCE6, 0xD66, 0xDE6, 0xE50, 0xED0, 0xF20, 0x1040, 0x1090, 0x17E0,
   0x1810, 0x1946, 0x19D0, 0x1A80, 0x1A90, 0x1B50, 0x1BB0, 0x1C40, 0x1C50,
   0xA620, 0xA8D0, 0xA900, 0xA9D0, 0xA9F0, 0xAA50, 0xABF0, 0xFF10,
   0x104A0, 0x10D30, 0x11066, 0x110F0, 0x11136, 0x111D0, 0x112F0, 0x11450,
   0x114D0, 0x11650, 0x116C0, 0x11730, 0x118E0, 0x11950, 0x11C50, 0x11D50,
   0x11DA0, 0x11F50, 0x16A60, 0x16AC0, 0x16B50, 0x1D7CE, 0x1D7D8, 0x1D7E2,
   0x1D7EC, 0x1D7F6, 0x1E140, 0x1E2F0, 0x1E4F0, 0x1E950, 0x1FBF0]

/-- The decimal value of a Unicode `Nd` digit, `none` for every other
character; this is the digit test `int()` applies per character. -/
def pyDigitVal? (c : Char) : Option Nat :=
  (pyDigitBases.find? (fun b => decide (b ≤ c.toNat ∧ c.toNat ≤ b + 9))).map
    (fun b => c.toNat - b)

/-- The digit part after the first digit of CPython's `int()` grammar
(`digit (["_"] digit)*`): a single underscore may separate two digits,
never lead, trail or repeat. -/
def parsePyDigits : List Char → Nat → Option Nat
  | [], acc => some acc
  | '_' :: c :: cs, acc =>
    match pyDigitVal? c with
    | some d => parsePyDigits cs (acc * 10 + d)
    | none => none
  | c :: cs, acc =>
    match pyDigitVal? c with
    | some d => parsePyDigits cs (acc * 10 + d)
    | none => none

/-- The digit part of CPython's `int()` grammar: at least one digit,
then `parsePyDigits`. -/
def parsePyIntDigits : List Char → Option Nat
  | [] => none
  | c :: cs =>
    match pyDigitVal? c with
    | some d => parsePyDigits cs d
    | none => none

/-- Embeds CPython `int()` applied to the entry text: strip the Python
whitespace set, then an optional sign followed by at least one Unicode
decimal digit, with single underscores allowed between digits
(`int("1_2") = 12`, `int("٥") = 5`). -/
def pyInt (s : String) : Option Int :=
  match (pyStrip s).data with
  | [] => none
  | '-' :: rest => (parsePyIntDigits rest).map (fun n => -(n : Int))
  | '+' :: rest => (parsePyIntDigits rest).map (fun n => (n : Int))
  | cs => (parsePyIntDigits cs).map (fun n => (n : Int))

/-- The default task name `f"第{i+1}部分_第{s}-{e}页"` of line 684. -/
def customTaskName (idx : Nat) (s e : Int) : String :=
  "第" ++ natRepr idx ++ "部分_第" ++ intRepr s ++ "-" ++ intRepr e ++ "页"

/-- Decidable equality for `Except`, needed to evaluate validator and
executor runs on concrete inputs. -/
instance exceptDecEq {ε α : Type} [DecidableEq ε] [DecidableEq α] :
    DecidableEq (Except ε α)
  | .ok a, .ok b =>
    if h : a = b then .isTrue (by rw [h])
    else .isFalse (by intro hh; cases hh; exact h rfl)
  | .ok _, .error _ => .isFalse (by intro h; cases h)
  | .error _, .ok _ => .isFalse (by intro h; cases h)
  | .error e, .error f =>
    if h : e = f then .isTrue (by rw [h])
    else .isFalse (by intro hh; cases hh; exact h rfl)

/-- The per-row outcome of the loop body of lines 652-685: skip the row,
abort the whole call, or append one task. -/
inductive RowStep where
  | skip
  | fail (e : ValidationError)
  | task (t : SplitTask)
deriving DecidableEq, Repr

/-- The loop body of `_collect_tasks` lines 652-685 for the row at
0-based index `i`: strip the three texts, skip fully empty rows, and
check the error conditions in source order. -/
def processRow (total_pages : Int) (i : Nat) (r : RawRow) : RowStep :=
  if pyStrip r.start_text = "" ∧ pyStrip r.end_text = "" then .skip
  else if pyStrip r.start_text = "" ∨ pyStrip r.end_text = "" then
    .fail (.missingField (i + 1))
  else
    match pyInt (pyStrip r.start_text), pyInt (pyStrip r.end_text) with
    | some s, some e =>
      if s < 1 ∨ e < 1 then .fail (.outOfRange (i + 1))
      else if s > e then .fail (.invertedRange (i + 1))
      else if e > total_pages then .fail (.exceedsDocument (i + 1))
      else .task ⟨s, e, if pyStrip r.name_text = "" then customTaskName (i + 1) s e
                        else pyStrip r.name_text⟩
    | _, _ => .fail (.notANumber (i + 1))

/-- The row loop: a `fail` aborts the whole call (the source's
`return None` with a warning box), a `task` is appended. -/
def collectRowsGo (total_pages : Int) :
    Nat → List RawRow → Except ValidationError (List SplitTask)
  | _, [] => .ok []
  | i, r :: rest =>
    match processRow total_pages i r with
    | .skip => collectRowsGo total_pages (i + 1) rest
    | .fail e => .error e
    | .task t => (collectRowsGo total_pages (i + 1) rest).map (fun ts => t :: ts)

/-- Embeds the custom branch of `_collect_tasks` (lines 651-691): run the
row loop over `self.custom_rows`, then fail with `emptyPlan` (the
source's `请至少填写一行有效的页码范围` warning) if no tasks remain. -/
def _collect_tasks_custom (total_pages : Int) (rows : List RawRow) :
    Except ValidationError (List SplitTask) :=
  match collectRowsGo total_pages 0 rows with
  | .ok [] => .error .emptyPlan
  | r => r

/-! ## Task executor (`_do_split`, pdf_splitter.py lines 693-746) -/

/-- The filesystem as a write journal: newest `(path, content)` pair
first; a read returns the newest entry for the path.  Directory creation
(`os.makedirs`, idempotent) has no observable effect in this model. -/
structure FileSys where
  files : List (String × String)
deriving DecidableEq, Repr

/-- Read the newest content written at `p`, if any. -/
def FileSys.read (fs : FileSys) (p : String) : Option String := fs.files.lookup p

/-- Embeds `os.path.exists`. -/
def FileSys.pathExists (fs : FileSys) (p : String) : Bool := (fs.read p).isSome

/-- Write (create or overwrite) the file at `p`. -/
def FileSys.write (fs : FileSys) (p v : String) : FileSys := ⟨(p, v) :: fs.files⟩

/-- The external PDF engine's page extraction (`fitz.open()` plus
`insert_pdf(..., from_page, to_page)` plus `save`): given the 0-based
call index (one call per task, in order) and the 0-based inclusive page
range, it returns the bytes of the new document or raises (an error
text).  Indexing calls by position models the environment resolving each
call independently. -/
structure Engine where
  extract : Nat → Int → Int → Except String String

/-- The observable state of a run: the filesystem, the append-only log
(`self._log` lines), and the trace of engine extraction requests
`(call index, from_page, to_page)`. -/
structure ExecState where
  fs : FileSys
  log : List String
  calls : List (Nat × Int × Int)
deriving DecidableEq, Repr

/-- Append one log line. -/
def ExecState.pushLog (st : ExecState) (m : String) : ExecState :=
  { st with log := st.log ++ [m] }

/-- The output filename of line 720: `f"{idx+1:02d}_{safe_name}.pdf"`
for the 0-based task index `idx`. -/
def outFileName (idx : Nat) (t : SplitTask) : String :=
  pad2 (idx + 1) ++ "_" ++ sanitize_filename t.name ++ ".pdf"

/-- The output path of line 721: `os.path.join(output_dir, out_filename)`. -/
def outPath (output_dir : String) (idx : Nat) (t : SplitTask) : String :=
  output_dir ++ "/" ++ outFileName idx t

/-- Embeds `os.path.basename`: the part after the final slash. -/
def baseName (p : String) : String :=
  String.mk ((p.data.reverse.takeWhile (fun c => c ≠ '/')).reverse)

/-- The backup directory name of line 697 (`"备份"`, "backup"). -/
def backupDirName : String := "备份"

/-- The backup path of line 704:
`os.path.join(backup_dir, os.path.basename(self.pdf_path))`. -/
def backupPath (output_dir pdf_path : String) : String :=
  output_dir ++ "/" ++ backupDirName ++ "/" ++ baseName pdf_path

/-- The log line of line 701. -/
def outDirMsg (output_dir : String) : String := "输出目录：" ++ output_dir

/-- The log line of line 707, emitted after copying the backup. -/
def backupLogMsg (pdf_path : String) : String :=
  "已备份原文件到：备份/" ++ baseName pdf_path

/-- The log line of line 709, emitted when the backup already exists. -/
def skipLogMsg : String := "备份文件已存在，跳过备份"

/-- The per-task log line of line 730. -/
def taskLogLine (idx : Nat) (t : SplitTask) : String :=
  "  已生成：" ++ outFileName idx t ++ "  （第" ++ intRepr t.start_page ++ "-" ++
    intRepr t.end_page ++ "页，共" ++ intRepr (t.end_page - t.start_page + 1) ++ "页）"

/-- The completion log line of line 734. -/
def doneMsg (total : Nat) : String :=
  "\n拆分完成！共生成 " ++ natRepr total ++ " 个文件。"

/-- The error text raised by `shutil.copy2` when the source file is
missing. -/
def copyErrMsg (pdf_path : String) : String := "No such file: " ++ pdf_path

/-- The task loop of lines 713-730: for each task, sanitize the name,
build the numbered output filename, request extraction of the 0-based
inclusive range `[start-1, end-1]`, and save the result; an engine error
aborts the remaining tasks, carrying the state at the failure point
(the UI-thread progress updates have no observable state here and are
not modelled). -/
def doSplitLoop (eng : Engine) (output_dir : String) :
    Nat → List SplitTask → ExecState → Except (String × ExecState) ExecState
  | _, [], st => .ok st
  | idx, t :: rest, st =>
    let st1 : ExecState := { st with calls := st.calls ++ [(idx, t.start_page - 1, t.end_page - 1)] }
    match eng.extract idx (t.start_page - 1) (t.end_page - 1) with
    | .error e => .error (e, st1)
    | .ok content =>
      let st2 : ExecState :=
        { st1 with fs := st1.fs.write (outPath output_dir idx t) content,
                   log := st1.log ++ [taskLogLine idx t] }
      doSplitLoop eng output_dir (idx + 1) rest st2

/-- The outcome of a run: the source's `except` clause reports any raised
error and re-enables the start button; both outcomes carry the final
observable state. -/
inductive RunResult where
  | completed (st : ExecState)
  | failed (err : String) (st : ExecState)
deriving DecidableEq, Repr

/-- The final observable state of a run. -/
def RunResult.state : RunResult → ExecState
  | .completed st => st
  | .failed _ st => st

/-- Embeds `_do_split` (lines 693-746): log the output directory, copy
the backup unless it already exists (logging either way), then run the
task loop and log completion.  A missing source file makes the copy
raise, which the `except` clause reports as a failed run. -/
def _do_split (eng : Engine) (pdf_path output_dir : String)
    (tasks : List SplitTask) (st0 : ExecState) : RunResult :=
  let stA := st0.pushLog (outDirMsg output_dir)
  let bp := backupPath output_dir pdf_path
  if stA.fs.pathExists bp then
    match doSplitLoop eng output_dir 0 tasks (stA.pushLog skipLogMsg) with
    | .ok st => .completed (st.pushLog (doneMsg tasks.length))
    | .error (e, st) => .failed e st
  else
    match stA.fs.read pdf_path with
    | some c =>
      match doSplitLoop eng output_dir 0 tasks
          { stA with fs := stA.fs.write bp c,
                     log := stA.log ++ [backupLogMsg pdf_path] } with
      | .ok st => .completed (st.pushLog (doneMsg tasks.length))
      | .error (e, st) => .failed e st
    | none => .failed (copyErrMsg pdf_path) stA

/-! ## Helper lemmas: sanitizer -/

theorem mem_replaceIllegalChars {cs : List Char} {c : Char}
    (h : c ∈ replaceIllegalChars cs) : c ∉ illegalChars := by
  unfold replaceIllegalChars at h
  obtain ⟨a, _, ha⟩ := List.mem_map.mp h
  by_cases hil : a ∈ illegalChars
  · simp only [hil, if_pos] at ha
    subst ha; decide
  · simp only [hil, if_neg, not_false_iff] at ha
    subst ha; exact hil

theorem mem_stripEnds {cs : List Char} {c : Char} (h : c ∈ stripEnds cs) :
    c ∈ cs := by
  unfold stripEnds at h
  rw [List.mem_reverse] at h
  have h2 := (List.dropWhile_sublist isStripChar).mem h
  rw [List.mem_reverse] at h2
  exact (List.dropWhile_sublist isStripChar).mem h2

theorem head?_dropWhile_false {p : Char → Bool} {l : List Char} {c : Char}
    (h : (l.dropWhile p).head? = some c) : p c = false := by
  induction l with
  | nil => simp at h
  | cons a t ih =>
    by_cases hp : p a = true
    · rw [List.dropWhile_cons_of_pos hp] at h
      exact ih h
    · rw [List.dropWhile_cons_of_neg hp] at h
      simp only [List.head?_cons, Option.some.injEq] at h
      subst h
      exact Bool.eq_false_iff.mpr hp

theorem head?_of_pre {l m : List Char} {c : Char} (h : l <+: m)
    (hc : l.head? = some c) : m.head? = some c := by
  obtain ⟨t, rfl⟩ := h
  cases l <;> simp_all

theorem stripEnds_pre (cs : List Char) :
    stripEnds cs <+: cs.dropWhile isStripChar := by
  unfold stripEnds
  have h : ((cs.dropWhile isStripChar).reverse.dropWhile isStripChar)
      <:+ (cs.dropWhile isStripChar).reverse := List.dropWhile_suffix isStripChar
  have h2 := List.reverse_prefix.mpr h
  rwa [List.reverse_reverse] at h2

theorem stripEnds_head? {cs : List Char} {c : Char}
    (h : (stripEnds cs).head? = some c) : isStripChar c = false :=
  head?_dropWhile_false (head?_of_pre (stripEnds_pre cs) h)

theorem stripEnds_getLast? {cs : List Char} {c : Char}
    (h : (stripEnds cs).getLast? = some c) : isStripChar c = false := by
  unfold stripEnds at h
  rw [List.getLast?_reverse] at h
  exact head?_dropWhile_false h

/-! ## Claim theorems: sanitizer (C9, C10) -/

/-- C9: `sanitize_filename` is a total pure function whose result
contains none of the illegal characters `< > : " / \ | ? *`, carries no
leading or trailing space or period, falls back to the fixed literal
`未命名` when the cleaned name is empty, and in particular maps `""` to
the fallback and `"  a.  "` to `"a"`. -/
theorem claim_C9_sanitize_spec :
    (∀ s c, c ∈ (sanitize_filename s).data → c ∉ illegalChars)
    ∧ (∀ s c, (sanitize_filename s).data.head? = some c → isStripChar c = false)
    ∧ (∀ s c, (sanitize_filename s).data.getLast? = some c → isStripChar c = false)
    ∧ (∀ s, stripEnds (replaceIllegalChars s.data) = [] →
        sanitize_filename s = fallbackName)
    ∧ sanitize_filename "" = fallbackName
    ∧ sanitize_filename "  a.  " = "a" := by
  refine ⟨?_, ?_, ?_, ?_, by decide, by decide⟩
  · intro s c hc
    unfold sanitize_filename at hc
    by_cases he : (stripEnds (replaceIllegalChars s.data)).isEmpty
    · rw [if_pos he] at hc
      have hd : fallbackName.data = ['未', '命', '名'] := rfl
      rw [hd] at hc
      simp only [List.mem_cons, List.not_mem_nil, or_false] at hc
      rcases hc with rfl | rfl | rfl <;> decide
    · rw [if_neg he] at hc
      exact mem_replaceIllegalChars (mem_stripEnds hc)
  · intro s c hc
    unfold sanitize_filename at hc
    by_cases he : (stripEnds (replaceIllegalChars s.data)).isEmpty
    · rw [if_pos he] at hc
      rw [show (fallbackName.data.head?) = some '未' from rfl] at hc
      cases hc; decide
    · rw [if_neg he] at hc
      exact stripEnds_head? hc
  · intro s c hc
    unfold sanitize_filename at hc
    by_cases he : (stripEnds (replaceIllegalChars s.data)).isEmpty
    · rw [if_pos he] at hc
      rw [show (fallbackName.data.getLast?) = some '名' from rfl] at hc
      cases hc; decide
    · rw [if_neg he] at hc
      exact stripEnds_getLast? hc
  · intro s h
    unfold sanitize_filename
    rw [h]
    rfl

/-- C9 witness: evaluating the sanitizer at `"a/b:c"`, the character `a`
of the result is not illegal; the other hypotheses are discharged at
concrete inputs as well. -/
theorem claim_C9_sanitize_spec_witness :
    ('a' ∈ (sanitize_filename "a/b:c").data ∧ 'a' ∉ illegalChars)
    ∧ ((sanitize_filename "xy").data.head? = some 'x' ∧ isStripChar 'x' = false)
    ∧ (stripEnds (replaceIllegalChars (" . " : String).data) = []
        ∧ sanitize_filename " . " = fallbackName) :=
  ⟨⟨by decide, claim_C9_sanitize_spec.1 "a/b:c" 'a' (by decide)⟩,
   ⟨by decide, claim_C9_sanitize_spec.2.1 "xy" 'x' (by decide)⟩,
   ⟨by decide, claim_C9_sanitize_spec.2.2.2.1 " . " (by decide)⟩⟩

/-- C10: the substitution stage of `sanitize_filename` replaces each
illegal character with an underscore rather than deleting it: the length
is preserved, position `i` becomes `'_'` exactly when it held an illegal
character and is unchanged otherwise, and in particular
`sanitize_filename "a/b:c" = "a_b_c"`. -/
theorem claim_C10_sanitize_replaces_with_underscore :
    (∀ s : String, (replaceIllegalChars s.data).length = s.data.length)
    ∧ (∀ (s : String) (i : Nat) (c : Char), s.data[i]? = some c →
        c ∈ illegalChars → (replaceIllegalChars s.data)[i]? = some '_')
    ∧ (∀ (s : String) (i : Nat) (c : Char), s.data[i]? = some c →
        c ∉ illegalChars → (replaceIllegalChars s.data)[i]? = some c)
    ∧ sanitize_filename "a/b:c" = "a_b_c" := by
  refine ⟨?_, ?_, ?_, by decide⟩
  · intro s
    exact List.length_map s.data _
  · intro s i c hc hil
    unfold replaceIllegalChars
    rw [List.getElem?_map, hc]
    simp [hil]
  · intro s i c hc hil
    unfold replaceIllegalChars
    rw [List.getElem?_map, hc]
    simp [hil]

/-- C10 witness: in `"a/b:c"`, position 1 holds `'/'` and becomes `'_'`,
position 0 holds `'a'` and is unchanged. -/
theorem claim_C10_sanitize_replaces_with_underscore_witness :
    (("a/b:c" : String).data[1]? = some '/' ∧ '/' ∈ illegalChars
      ∧ (replaceIllegalChars ("a/b:c" : String).data)[1]? = some '_')
    ∧ (("a/b:c" : String).data[0]? = some 'a' ∧ 'a' ∉ illegalChars
      ∧ (replaceIllegalChars ("a/b:c" : String).data)[0]? = some 'a') :=
  ⟨⟨by decide, by decide,
    claim_C10_sanitize_replaces_with_underscore.2.1 "a/b:c" 1 '/' (by decide) (by decide)⟩,
   ⟨by decide, by decide,
    claim_C10_sanitize_replaces_with_underscore.2.2.1 "a/b:c" 0 'a' (by decide) (by decide)⟩⟩

/-! ## Helper lemmas: size-based planner -/

/-- A throwaway task for total indexing via `List.getD`. -/
def dummyTask : SplitTask := ⟨0, 0, ""⟩

theorem getD_range_map {α : Type} {n i : Nat} (f : Nat → α) (d : α) (h : i < n) :
    ((List.range n).map f).getD i d = f i := by
  rw [List.getD_eq_getElem?_getD, List.getElem?_map, List.getElem?_range h]
  rfl

/-- Line 528's integer form of `pages_per_part` agrees with the spec's
`floor(max_bytes / (file_size / total_pages))` over exact rationals. -/
theorem size_ppp_eq_floor {mb tp fs : Nat} (htp : 0 < tp) (hfs : 0 < fs) :
    ⌊(mb : ℚ) / ((fs : ℚ) / (tp : ℚ))⌋₊ = mb * tp / fs := by
  have h1 : (mb : ℚ) / ((fs : ℚ) / (tp : ℚ)) = ((mb * tp : ℕ) : ℚ) / ((fs : ℕ) : ℚ) := by
    have h2 : (fs : ℚ) ≠ 0 := Nat.cast_ne_zero.mpr hfs.ne'
    have h3 : (tp : ℚ) ≠ 0 := Nat.cast_ne_zero.mpr htp.ne'
    push_cast
    field_simp
  rw [h1, Nat.floor_div_nat, Nat.floor_natCast]

theorem ceil_div_mul_ge (tp ppp : Nat) (hp : 0 < ppp) :
    tp ≤ ((tp + ppp - 1) / ppp) * ppp := by
  have h1 := Nat.div_add_mod (tp + ppp - 1) ppp
  have h2 := Nat.mod_lt (tp + ppp - 1) hp
  rw [Nat.mul_comm]
  omega

theorem ceil_div_pred_mul_lt (tp ppp : Nat) (hp : 0 < ppp) (ht : 0 < tp) :
    (((tp + ppp - 1) / ppp) - 1) * ppp < tp := by
  have h1 := Nat.div_add_mod (tp + ppp - 1) ppp
  have h2 := Nat.mod_lt (tp + ppp - 1) hp
  rw [Nat.sub_mul, Nat.one_mul, Nat.mul_comm]
  omega

/-- Line 529's `-(-total_pages // pages_per_part)` (embedded as
`(tp + ppp - 1) / ppp`) agrees with the spec's
`ceil(total_pages / pages_per_part)` over exact rationals. -/
theorem ceil_div_eq_natCeil {tp ppp : Nat} (hp : 0 < ppp) (ht : 0 < tp) :
    ⌈(tp : ℚ) / (ppp : ℚ)⌉₊ = (tp + ppp - 1) / ppp := by
  have key1 := ceil_div_mul_ge tp ppp hp
  have key2 := ceil_div_pred_mul_lt tp ppp hp ht
  have hnp : (tp + ppp - 1) / ppp ≠ 0 := by
    intro h0
    rw [h0] at key1
    omega
  have hpq : (0 : ℚ) < (ppp : ℚ) := by exact_mod_cast hp
  rw [Nat.ceil_eq_iff hnp]
  constructor
  · rw [lt_div_iff₀ hpq]
    exact_mod_cast key2
  · rw [div_le_iff₀ hpq]
    exact_mod_cast key1

/-! ## Claim theorems: size-based planner (C1, C5) -/

/-- C1: for `total_pages > 0` and `max_bytes > 0` with
`total_bytes > max_bytes`, the size planner computes
`avg_page_bytes = total_bytes / total_pages`,
`pages_per_part = max(1, floor(max_bytes / avg_page_bytes))` and
`num_parts = ceil(total_pages / pages_per_part)` (both shown over exact
rationals), and returns exactly `num_parts` contiguous, non-overlapping,
exhaustive ranges covering `[1, total_pages]`, each of `pages_per_part`
pages with the last truncated to `total_pages`; in particular
`plan_by_size(100, 210_000_000, 100_000_000)` yields the ranges
`[1,47],[48,94],[95,100]`. -/
theorem claim_C1_size_planner_spec :
    (∀ total_pages file_size max_bytes pages_per_part num_parts : Nat,
      ∀ plan : List SplitTask,
      0 < total_pages → 0 < max_bytes → max_bytes < file_size →
      pages_per_part =
        max 1 ⌊(max_bytes : ℚ) / ((file_size : ℚ) / (total_pages : ℚ))⌋₊ →
      num_parts = ⌈(total_pages : ℚ) / (pages_per_part : ℚ)⌉₊ →
      plan = _calc_size_split total_pages file_size max_bytes →
      plan.length = num_parts
      ∧ (∀ i, i < num_parts →
          (plan.getD i dummyTask).start_page = ((i * pages_per_part + 1 : Nat) : Int)
          ∧ (plan.getD i dummyTask).end_page =
              ((min ((i + 1) * pages_per_part) total_pages : Nat) : Int))
      ∧ (plan.getD 0 dummyTask).start_page = 1
      ∧ (plan.getD (num_parts - 1) dummyTask).end_page = (total_pages : Int)
      ∧ (∀ i, i + 1 < num_parts →
          (plan.getD (i + 1) dummyTask).start_page
            = (plan.getD i dummyTask).end_page + 1)
      ∧ (∀ i, i + 1 < num_parts →
          (plan.getD i dummyTask).end_page - (plan.getD i dummyTask).start_page + 1
            = (pages_per_part : Int))
      ∧ (plan.getD (num_parts - 1) dummyTask).end_page
          - (plan.getD (num_parts - 1) dummyTask).start_page + 1
            ≤ (pages_per_part : Int))
    ∧ (_calc_size_split 100 210000000 100000000).map
        (fun t => (t.start_page, t.end_page)) = [(1, 47), (48, 94), (95, 100)] := by
  refine ⟨?_, by decide⟩
  intro tp fs mb ppq npq plan htp hmb hlt hpp hnp hplan
  have hfs : 0 < fs := hmb.trans hlt
  -- the integer forms used by the definition
  have hppEq : ppq = max 1 (mb * tp / fs) := by
    rw [hpp, size_ppp_eq_floor htp hfs]
  set P : Nat := max 1 (mb * tp / fs) with hP
  have hPpos : 0 < P := le_max_left 1 _
  have hnpEq : npq = (tp + P - 1) / P := by
    rw [hnp, hppEq, ceil_div_eq_natCeil hPpos htp]
  set NP : Nat := (tp + P - 1) / P with hNP
  have key1 : tp ≤ NP * P := ceil_div_mul_ge tp P hPpos
  have key2 : (NP - 1) * P < tp := ceil_div_pred_mul_lt tp P hPpos htp
  have hNPpos : 0 < NP := by
    rcases Nat.eq_zero_or_pos NP with h0 | h
    · rw [h0, Nat.zero_mul] at key1
      omega
    · exact h
  have hplanEq : plan = (List.range NP).map (fun i =>
      ⟨((i * P + 1 : Nat) : Int), ((min ((i + 1) * P) tp : Nat) : Int),
        sizeTaskName (i + 1) (i * P + 1) (min ((i + 1) * P) tp)⟩) := by
    rw [hplan]
    unfold _calc_size_split
    rw [if_neg (not_le.mpr hlt)]
  have hget : ∀ i, i < NP → plan.getD i dummyTask =
      ⟨((i * P + 1 : Nat) : Int), ((min ((i + 1) * P) tp : Nat) : Int),
        sizeTaskName (i + 1) (i * P + 1) (min ((i + 1) * P) tp)⟩ := by
    intro i hi
    rw [hplanEq, getD_range_map _ _ hi]
  -- the interior parts span exactly `P` pages
  have hmin_interior : ∀ i, i + 1 < NP → min ((i + 1) * P) tp = (i + 1) * P := by
    intro i hi
    have h1 : i + 1 ≤ NP - 1 := by omega
    have h2 : (i + 1) * P ≤ (NP - 1) * P := Nat.mul_le_mul_right P h1
    exact min_eq_left (le_of_lt (lt_of_le_of_lt h2 key2))
  have hmin_last : min ((NP - 1 + 1) * P) tp = tp := by
    have h1 : NP - 1 + 1 = NP := Nat.sub_add_cancel hNPpos
    rw [h1]
    exact min_eq_right key1
  rw [hnpEq, hppEq]
  refine ⟨?_, ?_, ?_, ?_, ?_, ?_, ?_⟩
  · rw [hplanEq, List.length_map, List.length_range]
  · intro i hi
    rw [hget i hi]
    exact ⟨rfl, rfl⟩
  · rw [hget 0 hNPpos]
    simp
  · rw [hget (NP - 1) (by omega), hmin_last]
  · intro i hi
    rw [hget i (by omega), hget (i + 1) hi, hmin_interior i hi]
    have h1 : (i + 1) * P + 1 = (i + 1) * P + 1 := rfl
    push_cast
    ring
  · intro i hi
    rw [hget i (by omega), hmin_interior i hi]
    have h1 : (i + 1) * P = i * P + P := Nat.succ_mul i P
    rw [h1]
    push_cast
    ring
  · rw [hget (NP - 1) (by omega), hmin_last]
    have h1 : NP * P = (NP - 1) * P + P := by
      have h2 : NP - 1 + 1 = NP := Nat.sub_add_cancel hNPpos
      calc NP * P = (NP - 1 + 1) * P := by rw [h2]
        _ = (NP - 1) * P + P := Nat.succ_mul _ _
    have h3 : tp ≤ (NP - 1) * P + P := by rw [← h1]; exact key1
    push_cast
    omega

/-- C1 witness: the general part of `claim_C1_size_planner_spec`
instantiated at the documented example
`plan_by_size(100, 210_000_000, 100_000_000)`. -/
theorem claim_C1_size_planner_spec_witness :
    (_calc_size_split 100 210000000 100000000).length
      = ⌈(100 : ℚ) / ((max 1 ⌊(100000000 : ℚ) / ((210000000 : ℚ) / (100 : ℚ))⌋₊ : Nat) : ℚ)⌉₊
    ∧ ((_calc_size_split 100 210000000 100000000).getD 0 dummyTask).start_page = 1 :=
  have h := (claim_C1_size_planner_spec.1 100 210000000 100000000
    (max 1 ⌊(100000000 : ℚ) / ((210000000 : ℚ) / (100 : ℚ))⌋₊)
    (⌈(100 : ℚ) / ((max 1 ⌊(100000000 : ℚ) / ((210000000 : ℚ) / (100 : ℚ))⌋₊ : Nat) : ℚ)⌉₊)
    (_calc_size_split 100 210000000 100000000)
    (by decide) (by decide) (by decide) rfl rfl rfl)
  ⟨h.1, h.2.2.1⟩

/-- C5: whenever `total_bytes <= max_bytes` the size planner returns an
empty plan ("no split needed"), rather than an error or any tasks; in
particular `plan_by_size(100, 50_000_000, 100_000_000)` is empty. -/
theorem claim_C5_no_split_needed :
    (∀ total_pages file_size max_bytes : Nat, file_size ≤ max_bytes →
      _calc_size_split total_pages file_size max_bytes = [])
    ∧ _calc_size_split 100 50000000 100000000 = [] := by
  refine ⟨?_, by decide⟩
  intro tp fs mb h
  unfold _calc_size_split
  rw [if_pos h]

/-- C5 witness: the documented example, with the size hypothesis
discharged by evaluation. -/
theorem claim_C5_no_split_needed_witness :
    50000000 ≤ 100000000
    ∧ _calc_size_split 100 50000000 100000000 = [] :=
  ⟨by decide, claim_C5_no_split_needed.1 100 50000000 100000000 (by decide)⟩

/-! ## Helper lemmas: outline flattener -/

/-- The clamp of line 441-442 written as a maximum. -/
theorem if_lt_eq_max (s e0 : Int) : (if e0 < s then s else e0) = max s e0 := by
  split <;> omega

theorem getLast?_range {n : Nat} (h : 0 < n) :
    (List.range n).getLast? = some (n - 1) := by
  have h1 : n = (n - 1) + 1 := by omega
  conv_lhs => rw [h1]
  rw [List.range_succ, List.getLast?_concat]

/-- When some entry survives the level filter, `_get_chapters` is the
indexed map over the filtered list. -/
theorem get_chapters_eq_map {toc : List (Int × String × Int)}
    {total_pages max_level : Int}
    (h : ¬(chaptersFiltered toc max_level).isEmpty = true) :
    _get_chapters toc total_pages max_level =
      (List.range (chaptersFiltered toc max_level).length).map (fun i =>
        let p := (chaptersFiltered toc max_level).getD i ("", 1)
        let e0 : Int :=
          if i + 1 < (chaptersFiltered toc max_level).length then
            ((chaptersFiltered toc max_level).getD (i + 1) ("", 1)).2 - 1
          else total_pages
        { title := p.1, start_page := p.2
          end_page := if e0 < p.2 then p.2 else e0 }) := by
  unfold _get_chapters
  have htoc : ¬toc.isEmpty = true := by
    intro h0
    apply h
    rw [List.isEmpty_iff] at h0
    rw [h0]
    rfl
  rw [if_neg htoc, if_neg h]

theorem get_chapters_empty {toc : List (Int × String × Int)}
    {total_pages max_level : Int}
    (h : (chaptersFiltered toc max_level).isEmpty = true) :
    _get_chapters toc total_pages max_level = [] := by
  unfold _get_chapters
  by_cases htoc : toc.isEmpty = true
  · rw [if_pos htoc]
  · rw [if_neg htoc, if_pos h]

/-! ## Claim theorems: outline flattener (C4, C2) -/

/-- C4: `_get_chapters` keeps only entries with `level <= max_level` in
their original order, clamping each target page to minimum 1
(`chaptersFiltered` is definitionally that filter-map); each surviving
entry at index `i` yields the chapter `(title, start, end)` with
`start = target_page[i]` and `end` the next surviving target minus one
(`total_pages` for the last entry), clamped up to `start` when smaller
(written as a maximum); in particular `max_level = 1` on
`[(1,"A",1),(2,"A.1",2),(1,"B",5)]` over 10 pages yields
`[("A",1,4),("B",5,10)]`. -/
theorem claim_C4_outline_flattener_spec :
    (∀ (toc : List (Int × String × Int)) (ml : Int),
      chaptersFiltered toc ml =
        (toc.filter (fun e => e.1 ≤ ml)).map (fun e => (pyStrip e.2.1, max 1 e.2.2)))
    ∧ (∀ (toc : List (Int × String × Int)) (tp ml : Int),
        (_get_chapters toc tp ml).length = (chaptersFiltered toc ml).length)
    ∧ (∀ (toc : List (Int × String × Int)) (tp ml : Int) (i : Nat),
        i < (chaptersFiltered toc ml).length →
        (_get_chapters toc tp ml).getD i ⟨"", 0, 0⟩ =
          { title := ((chaptersFiltered toc ml).getD i ("", 1)).1
            start_page := ((chaptersFiltered toc ml).getD i ("", 1)).2
            end_page := max ((chaptersFiltered toc ml).getD i ("", 1)).2
              (if i + 1 < (chaptersFiltered toc ml).length then
                ((chaptersFiltered toc ml).getD (i + 1) ("", 1)).2 - 1
              else tp) })
    ∧ _get_chapters [(1, "A", 1), (2, "A.1", 2), (1, "B", 5)] 10 1 =
        [⟨"A", 1, 4⟩, ⟨"B", 5, 10⟩] := by
  refine ⟨fun toc ml => rfl, ?_, ?_, by decide⟩
  · intro toc tp ml
    by_cases h : (chaptersFiltered toc ml).isEmpty = true
    · rw [get_chapters_empty h, List.isEmpty_iff.mp h]
      rfl
    · rw [get_chapters_eq_map h, List.length_map, List.length_range]
  · intro toc tp ml i hi
    have h : ¬(chaptersFiltered toc ml).isEmpty = true := by
      intro h0
      rw [List.isEmpty_iff.mp h0] at hi
      simp at hi
    rw [get_chapters_eq_map h, getD_range_map _ _ hi]
    simp only
    rw [if_lt_eq_max]

/-- C4 witness: the indexed characterization applied at index 0 of the
documented example. -/
theorem claim_C4_outline_flattener_spec_witness :
    0 < (chaptersFiltered [(1, "A", 1), (2, "A.1", 2), (1, "B", 5)] 1).length
    ∧ (_get_chapters [(1, "A", 1), (2, "A.1", 2), (1, "B", 5)] 10 1).getD 0 ⟨"", 0, 0⟩ =
      { title := ((chaptersFiltered [(1, "A", 1), (2, "A.1", 2), (1, "B", 5)] 1).getD 0 ("", 1)).1
        start_page := ((chaptersFiltered [(1, "A", 1), (2, "A.1", 2), (1, "B", 5)] 1).getD 0 ("", 1)).2
        end_page := max ((chaptersFiltered [(1, "A", 1), (2, "A.1", 2), (1, "B", 5)] 1).getD 0 ("", 1)).2
          (if 0 + 1 < (chaptersFiltered [(1, "A", 1), (2, "A.1", 2), (1, "B", 5)] 1).length then
            ((chaptersFiltered [(1, "A", 1), (2, "A.1", 2), (1, "B", 5)] 1).getD (0 + 1) ("", 1)).2 - 1
          else 10) } :=
  ⟨by decide,
   claim_C4_outline_flattener_spec.2.2.1 [(1, "A", 1), (2, "A.1", 2), (1, "B", 5)]
     10 1 0 (by decide)⟩

/-- C2 counterexample: on the outline `[(1, "A", 5)]` with
`total_pages = 3`, the flattener's clamp makes the final (and only)
range `("A", 5, 5)`, whose `end_page` is not `total_pages`. -/
theorem claim_C2_counterexample :
    _get_chapters [(1, "A", 5)] 3 1 = [⟨"A", 5, 5⟩]
    ∧ (_get_chapters [(1, "A", 5)] 3 1).getLast? = some ⟨"A", 5, 5⟩
    ∧ ((5 : Int) = 3 → False) := by
  refine ⟨by decide, by decide, by decide⟩

/-- C2 as amended: every returned range satisfies
`start_page <= end_page`, and the final range of a non-empty result has
`end_page = max start_page total_pages` — equal to `total_pages`
whenever the final surviving entry's clamped target page does not exceed
`total_pages`. -/
theorem claim_C2_amended_flattener_ranges :
    (∀ (toc : List (Int × String × Int)) (tp ml : Int) (ch : Chapter),
      ch ∈ _get_chapters toc tp ml → ch.start_page ≤ ch.end_page)
    ∧ (∀ (toc : List (Int × String × Int)) (tp ml : Int) (ch : Chapter),
        (_get_chapters toc tp ml).getLast? = some ch →
        ch.end_page = max ch.start_page tp) := by
  constructor
  · intro toc tp ml ch hch
    by_cases h : (chaptersFiltered toc ml).isEmpty = true
    · rw [get_chapters_empty h] at hch
      cases hch
    · rw [get_chapters_eq_map h] at hch
      obtain ⟨i, _, hf⟩ := List.mem_map.mp hch
      subst hf
      simp only
      rw [if_lt_eq_max]
      exact le_max_left _ _
  · intro toc tp ml ch hch
    by_cases h : (chaptersFiltered toc ml).isEmpty = true
    · rw [get_chapters_empty h] at hch
      cases hch
    · rw [get_chapters_eq_map h] at hch
      have hlen : 0 < (chaptersFiltered toc ml).length := by
        rcases Nat.eq_zero_or_pos (chaptersFiltered toc ml).length with h0 | hp
        · exact absurd (by rw [List.isEmpty_iff, ← List.length_eq_zero]; exact h0) h
        · exact hp
      rw [List.getLast?_map, getLast?_range hlen] at hch
      simp only [Option.map_some'] at hch
      have hnotlt : ¬((chaptersFiltered toc ml).length - 1 + 1 <
          (chaptersFiltered toc ml).length) := by omega
      rw [if_neg hnotlt, if_lt_eq_max] at hch
      cases Option.some.inj hch
      rfl

/-- C2 amended witness: concrete runs through both conjuncts, on an
outline whose final target page lies inside the document. -/
theorem claim_C2_amended_flattener_ranges_witness :
    (⟨"A", 1, 10⟩ ∈ _get_chapters [(1, "A", 1)] 10 1
      ∧ (1 : Int) ≤ 10)
    ∧ ((_get_chapters [(1, "A", 1)] 10 1).getLast? = some ⟨"A", 1, 10⟩
      ∧ (10 : Int) = max 1 10) :=
  ⟨⟨by decide, claim_C2_amended_flattener_ranges.1 [(1, "A", 1)] 10 1 ⟨"A", 1, 10⟩ (by decide)⟩,
   ⟨by decide, claim_C2_amended_flattener_ranges.2 [(1, "A", 1)] 10 1 ⟨"A", 1, 10⟩ (by decide)⟩⟩

/-! ## Helper lemmas: range validator -/

theorem pyInt_some_ne_empty {t : String} {v : Int} (h : pyInt t = some v) :
    ¬t = "" := by
  intro he
  subst he
  rw [show pyInt "" = none from rfl] at h
  exact Option.noConfusion h

theorem collectRowsGo_all_skip {total_pages : Int} :
    ∀ (rows : List RawRow) (idx : Nat),
    (∀ pr ∈ rows.enumFrom idx, processRow total_pages pr.1 pr.2 = .skip) →
    collectRowsGo total_pages idx rows = .ok [] := by
  intro rows
  induction rows with
  | nil => intro idx _; rfl
  | cons p rest ih =>
    intro idx h
    have hp : processRow total_pages idx p = .skip :=
      h (idx, p) (by simp [List.enumFrom])
    unfold collectRowsGo
    rw [hp]
    exact ih (idx + 1) (fun pr hm => h pr (by simp [List.enumFrom]; right; exact hm))

theorem collectRowsGo_first_fail {total_pages : Int} :
    ∀ (pre : List RawRow) (idx : Nat) (r : RawRow) (post : List RawRow)
      (err : ValidationError),
    (∀ pr ∈ pre.enumFrom idx, ∀ e, ¬processRow total_pages pr.1 pr.2 = .fail e) →
    processRow total_pages (idx + pre.length) r = .fail err →
    collectRowsGo total_pages idx (pre ++ r :: post) = .error err := by
  intro pre
  induction pre with
  | nil =>
    intro idx r post err _ hr
    rw [List.nil_append]
    unfold collectRowsGo
    rw [show idx + [].length = idx from rfl] at hr
    rw [hr]
  | cons p rest ih =>
    intro idx r post err hpre hr
    have hlen : idx + (p :: rest).length = (idx + 1) + rest.length := by
      simp [List.length_cons]
      omega
    rw [hlen] at hr
    have hrest : ∀ pr ∈ rest.enumFrom (idx + 1), ∀ e,
        ¬processRow total_pages pr.1 pr.2 = .fail e :=
      fun pr hm => hpre pr (by simp [List.enumFrom]; right; exact hm)
    have hp := hpre (idx, p) (by simp [List.enumFrom])
    rw [List.cons_append]
    unfold collectRowsGo
    cases hstep : processRow total_pages idx p with
    | skip => exact ih (idx + 1) r post err hrest hr
    | fail e => exact absurd hstep (hp e)
    | task t =>
      rw [ih (idx + 1) r post err hrest hr]
      rfl

/-! ## Claim theorem: range validator (C3) -/

/-- C3: the custom-range validator skips a row whose stripped start and
end texts are both empty, fails with `missingField` when exactly one is
empty, `notANumber` on non-integer text, `outOfRange` when a bound is
below 1, `invertedRange` when start exceeds end, and `exceedsDocument`
when the end exceeds the page count, each error reporting that row's
(1-based) number; the first failing row aborts the whole call with that
single error, and an all-skipped row list fails with `emptyPlan`. -/
theorem claim_C3_validator_spec :
    (∀ (tp : Int) (i : Nat) (r : RawRow),
      pyStrip r.start_text = "" → pyStrip r.end_text = "" →
      processRow tp i r = .skip)
    ∧ (∀ (tp : Int) (i : Nat) (r : RawRow) (rest : List RawRow),
        processRow tp i r = .skip →
        collectRowsGo tp i (r :: rest) = collectRowsGo tp (i + 1) rest)
    ∧ (∀ (tp : Int) (i : Nat) (r : RawRow),
        (pyStrip r.start_text = "" ∧ ¬pyStrip r.end_text = "")
          ∨ (¬pyStrip r.start_text = "" ∧ pyStrip r.end_text = "") →
        processRow tp i r = .fail (.missingField (i + 1)))
    ∧ (∀ (tp : Int) (i : Nat) (r : RawRow),
        ¬pyStrip r.start_text = "" → ¬pyStrip r.end_text = "" →
        pyInt (pyStrip r.start_text) = none ∨ pyInt (pyStrip r.end_text) = none →
        processRow tp i r = .fail (.notANumber (i + 1)))
    ∧ (∀ (tp : Int) (i : Nat) (r : RawRow) (s e : Int),
        pyInt (pyStrip r.start_text) = some s →
        pyInt (pyStrip r.end_text) = some e →
        s < 1 ∨ e < 1 →
        processRow tp i r = .fail (.outOfRange (i + 1)))
    ∧ (∀ (tp : Int) (i : Nat) (r : RawRow) (s e : Int),
        pyInt (pyStrip r.start_text) = some s →
        pyInt (pyStrip r.end_text) = some e →
        1 ≤ s → 1 ≤ e → s > e →
        processRow tp i r = .fail (.invertedRange (i + 1)))
    ∧ (∀ (tp : Int) (i : Nat) (r : RawRow) (s e : Int),
        pyInt (pyStrip r.start_text) = some s →
        pyInt (pyStrip r.end_text) = some e →
        1 ≤ s → 1 ≤ e → s ≤ e → e > tp →
        processRow tp i r = .fail (.exceedsDocument (i + 1)))
    ∧ (∀ (tp : Int) (i : Nat) (r : RawRow) (s e : Int),
        pyInt (pyStrip r.start_text) = some s →
        pyInt (pyStrip r.end_text) = some e →
        1 ≤ s → 1 ≤ e → s ≤ e → e ≤ tp →
        processRow tp i r = .task ⟨s, e,
          if pyStrip r.name_text = "" then customTaskName (i + 1) s e
          else pyStrip r.name_text⟩)
    ∧ (∀ (tp : Int) (i : Nat) (r : RawRow) (e : ValidationError),
        processRow tp i r = .fail e → e.rowNum = some (i + 1))
    ∧ (∀ (tp : Int) (pre : List RawRow) (r : RawRow) (post : List RawRow)
        (err : ValidationError),
        (∀ pr ∈ pre.enumFrom 0, ∀ e, ¬processRow tp pr.1 pr.2 = .fail e) →
        processRow tp pre.length r = .fail err →
        _collect_tasks_custom tp (pre ++ r :: post) = .error err)
    ∧ (∀ (tp : Int) (rows : List RawRow),
        (∀ pr ∈ rows.enumFrom 0, processRow tp pr.1 pr.2 = .skip) →
        _collect_tasks_custom tp rows = .error .emptyPlan) := by
  refine ⟨?_, ?_, ?_, ?_, ?_, ?_, ?_, ?_, ?_, ?_, ?_⟩
  · intro tp i r h1 h2
    unfold processRow
    rw [if_pos ⟨h1, h2⟩]
  · intro tp i r rest h
    show (match processRow tp i r with
      | RowStep.skip => collectRowsGo tp (i + 1) rest
      | RowStep.fail e => Except.error e
      | RowStep.task t => (collectRowsGo tp (i + 1) rest).map (fun ts => t :: ts))
      = collectRowsGo tp (i + 1) rest
    rw [h]
  · intro tp i r h
    unfold processRow
    rcases h with ⟨h1, h2⟩ | ⟨h1, h2⟩
    · rw [if_neg (by tauto), if_pos (Or.inl h1)]
    · rw [if_neg (by tauto), if_pos (Or.inr h2)]
  · intro tp i r h1 h2 h3
    unfold processRow
    rw [if_neg (by tauto), if_neg (by tauto)]
    rcases h3 with h3 | h3
    · rw [h3]
    · rw [h3]
      cases hs : pyInt (pyStrip r.start_text) <;> rfl
  · intro tp i r s e hps hpe h
    have h1 := pyInt_some_ne_empty hps
    have h2 := pyInt_some_ne_empty hpe
    unfold processRow
    rw [if_neg (by tauto), if_neg (by tauto), hps, hpe]
    simp only
    rw [if_pos h]
  · intro tp i r s e hps hpe hs1 he1 hlt
    have h1 := pyInt_some_ne_empty hps
    have h2 := pyInt_some_ne_empty hpe
    unfold processRow
    rw [if_neg (by tauto), if_neg (by tauto), hps, hpe]
    simp only
    rw [if_neg (by omega), if_pos hlt]
  · intro tp i r s e hps hpe hs1 he1 hle hgt
    have h1 := pyInt_some_ne_empty hps
    have h2 := pyInt_some_ne_empty hpe
    unfold processRow
    rw [if_neg (by tauto), if_neg (by tauto), hps, hpe]
    simp only
    rw [if_neg (by omega), if_neg (by omega), if_pos hgt]
  · intro tp i r s e hps hpe hs1 he1 hle hdoc
    have h1 := pyInt_some_ne_empty hps
    have h2 := pyInt_some_ne_empty hpe
    unfold processRow
    rw [if_neg (by tauto), if_neg (by tauto), hps, hpe]
    simp only
    rw [if_neg (by omega), if_neg (by omega), if_neg (by omega)]
  · intro tp i r e h
    unfold processRow at h
    repeat' split at h
    all_goals
      first
        | exact RowStep.noConfusion h
        | (cases h; rfl)
  · intro tp pre r post err hpre hr
    have hgo := collectRowsGo_first_fail pre 0 r post err hpre
      (by rw [Nat.zero_add]; exact hr)
    unfold _collect_tasks_custom
    rw [hgo]
  · intro tp rows h
    have hgo := collectRowsGo_all_skip rows 0 h
    unfold _collect_tasks_custom
    rw [hgo]

/-- C3 witness: concrete rows exercising the abort-at-first-failure and
empty-plan conjuncts (an inverted range on the displayed row 2 after a
skipped empty row; an all-empty table). -/
theorem claim_C3_validator_spec_witness :
    _collect_tasks_custom 100 [⟨" ", "", ""⟩, ⟨"5", "2", ""⟩] =
      .error (.invertedRange 2)
    ∧ _collect_tasks_custom 100 [⟨"", "", "x"⟩] = .error .emptyPlan :=
  ⟨claim_C3_validator_spec.2.2.2.2.2.2.2.2.2.1 100 [⟨" ", "", ""⟩] ⟨"5", "2", ""⟩ []
      (.invertedRange 2)
      (by
        intro pr hm e hf
        have hpr : pr = (0, (⟨" ", "", ""⟩ : RawRow)) := by
          simpa [List.enumFrom] using hm
        subst hpr
        have hskip : processRow 100 0 (⟨" ", "", ""⟩ : RawRow) = .skip := by decide
        rw [hskip] at hf
        exact RowStep.noConfusion hf)
      (by decide),
   claim_C3_validator_spec.2.2.2.2.2.2.2.2.2.2 100 [⟨"", "", "x"⟩] (by decide)⟩

/-! ## Helper lemmas: decimal rendering and output paths -/

theorem string_ext {a b : String} (h : a.data = b.data) : a = b := by
  cases a; cases b; cases h; rfl

theorem string_append_cancel_left {a b c : String} (h : a ++ b = a ++ c) :
    b = c := by
  have hd := congrArg String.data h
  rw [String.data_append, String.data_append] at hd
  exact string_ext (List.append_cancel_left hd)

theorem natDigitsRevAux_mem : ∀ {fuel n : Nat} {c : Char},
    c ∈ natDigitsRevAux fuel n → ∃ k, k < 10 ∧ c = digitChar48 k := by
  intro fuel
  induction fuel with
  | zero => intro n c h; cases h
  | succ f ih =>
    intro n c h
    unfold natDigitsRevAux at h
    by_cases h10 : n < 10
    · rw [if_pos h10] at h
      rcases List.mem_cons.mp h with h1 | h1
      · exact ⟨n, h10, h1⟩
      · cases h1
    · rw [if_neg h10] at h
      rcases List.mem_cons.mp h with h1 | h1
      · exact ⟨n % 10, Nat.mod_lt n (by omega), h1⟩
      · exact ih h1

theorem natDigitsRevAux_ne_nil {fuel n : Nat} (h : 0 < fuel) :
    ¬natDigitsRevAux fuel n = [] := by
  cases fuel with
  | zero => omega
  | succ f =>
    unfold natDigitsRevAux
    by_cases h10 : n < 10
    · rw [if_pos h10]; simp
    · rw [if_neg h10]; simp

theorem digitChar48_toNat {k : Nat} (h : k < 10) : (digitChar48 k).toNat = 48 + k := by
  interval_cases k <;> rfl

theorem pad2_head (n : Nat) :
    ∃ c rest, (pad2 n).data = c :: rest ∧ c.toNat ≤ 57 := by
  unfold pad2
  by_cases h10 : n < 10
  · rw [if_pos h10]
    refine ⟨'0', (natRepr n).data, ?_, by decide⟩
    rw [String.data_append]
    rfl
  · rw [if_neg h10]
    rcases hrev : (natDigitsRev n).reverse with _ | ⟨c, rest⟩
    · exfalso
      have hne : ¬natDigitsRev n = [] := natDigitsRevAux_ne_nil (by omega)
      rw [List.reverse_eq_nil_iff] at hrev
      exact hne hrev
    · refine ⟨c, rest, ?_, ?_⟩
      · show (natDigitsRev n).reverse = c :: rest
        exact hrev
      · have hc : c ∈ (natDigitsRev n).reverse := by
          rw [hrev]; exact List.mem_cons_self c rest
        rw [List.mem_reverse] at hc
        obtain ⟨k, hk, rfl⟩ := natDigitsRevAux_mem hc
        rw [digitChar48_toNat hk]
        omega

theorem pad2_length_ge_two (n : Nat) : 2 ≤ (pad2 n).data.length := by
  unfold pad2
  by_cases h10 : n < 10
  · rw [if_pos h10, String.data_append]
    rw [List.length_append]
    have h1 : (("0" : String).data).length = 1 := rfl
    have h2 : 1 ≤ (natRepr n).data.length := by
      show 1 ≤ (natDigitsRev n).reverse.length
      rw [List.length_reverse]
      cases hh : natDigitsRev n with
      | nil => exact absurd hh (natDigitsRevAux_ne_nil (by omega))
      | cons a l => simp
    omega
  · rw [if_neg h10]
    show 2 ≤ (natDigitsRev n).reverse.length
    rw [List.length_reverse]
    show 2 ≤ (natDigitsRevAux (n + 1) n).length
    unfold natDigitsRevAux
    rw [if_neg h10]
    rw [List.length_cons]
    cases hh : natDigitsRevAux n (n / 10) with
    | nil => exact absurd hh (natDigitsRevAux_ne_nil (by omega))
    | cons a l => simp

theorem pad2_head_zero {k : Nat} (h : k < 10) :
    (pad2 k).data.head? = some '0' := by
  unfold pad2
  rw [if_pos h, String.data_append]
  rfl

/-- A numbered task output path never collides with the backup path. -/
theorem outPath_ne_backupPath (od : String) (idx : Nat) (t : SplitTask)
    (src : String) : ¬outPath od idx t = backupPath od src := by
  intro h
  unfold outPath backupPath at h
  rw [String.append_assoc (od ++ "/") backupDirName "/",
    String.append_assoc (od ++ "/") (backupDirName ++ "/") (baseName src)] at h
  have h2 := string_append_cancel_left h
  have hd := congrArg String.data h2
  unfold outFileName at hd
  obtain ⟨c, rest, hp, hc⟩ := pad2_head (idx + 1)
  simp only [String.data_append, List.append_assoc] at hd
  rw [hp] at hd
  rw [show ((backupDirName : String)).data = ['备', '份'] from rfl] at hd
  simp only [List.cons_append, List.nil_append] at hd
  have hhead := congrArg List.head? hd
  simp only [List.head?_cons, Option.some.injEq] at hhead
  rw [hhead] at hc
  exact absurd hc (by decide)

/-! ## Helper lemmas: filesystem journal -/

/-- The number of journal entries written at path `p`. -/
def countWrites (p : String) (fs : FileSys) : Nat :=
  fs.files.countP (fun e => e.1 == p)

theorem lookup_append_of_not_mem {l m : List (String × String)} {p : String}
    (h : ∀ e ∈ l, ¬e.1 = p) : List.lookup p (l ++ m) = List.lookup p m := by
  induction l with
  | nil => rfl
  | cons e l ih =>
    obtain ⟨k, v⟩ := e
    have he : ¬k = p := h (k, v) (List.mem_cons_self (k, v) l)
    have hb : (p == k) = false := by
      rw [beq_eq_false_iff_ne]
      intro hh
      exact he hh.symm
    rw [List.cons_append]
    have hstep : List.lookup p ((k, v) :: (l ++ m)) = List.lookup p (l ++ m) := by
      simp [List.lookup, hb]
    rw [hstep]
    exact ih (fun e hm => h e (List.mem_cons_of_mem (k, v) hm))

theorem countP_eq_zero_of_not_mem {l : List (String × String)} {p : String}
    (h : ∀ e ∈ l, ¬e.1 = p) : l.countP (fun e => e.1 == p) = 0 := by
  rw [List.countP_eq_zero]
  intro e he
  simp only [beq_iff_eq]
  exact h e he

/-! ## Helper lemmas: task loop characterization -/

/-- The content the engine returns for a task (meaningful when the call
succeeds). -/
def extractedContent (eng : Engine) (i : Nat) (t : SplitTask) : String :=
  ((eng.extract i (t.start_page - 1) (t.end_page - 1)).toOption).getD ""

/-- The state carried by either outcome of the task loop. -/
def loopStateOf : Except (String × ExecState) ExecState → ExecState
  | .ok st => st
  | .error (_, st) => st

/-- The backup journal entries a run adds: one copy when the backup is
absent, none when it is present. -/
def backupWrites (fs : FileSys) (src bp : String) : List (String × String) :=
  if fs.pathExists bp then [] else [(bp, (fs.read src).getD "")]

theorem doSplitLoop_cons (eng : Engine) (od : String) (idx : Nat)
    (t : SplitTask) (rest : List SplitTask) (st : ExecState) :
    doSplitLoop eng od idx (t :: rest) st =
      match eng.extract idx (t.start_page - 1) (t.end_page - 1) with
      | .error e => .error (e,
          { st with calls := st.calls ++ [(idx, t.start_page - 1, t.end_page - 1)] })
      | .ok content => doSplitLoop eng od (idx + 1) rest
          { fs := st.fs.write (outPath od idx t) content,
            log := st.log ++ [taskLogLine idx t],
            calls := st.calls ++ [(idx, t.start_page - 1, t.end_page - 1)] } := rfl

theorem doSplitLoop_ok {eng : Engine} {od : String} :
    ∀ (tasks : List SplitTask) (idx : Nat) (st st' : ExecState),
    doSplitLoop eng od idx tasks st = .ok st' →
    st'.fs.files = ((tasks.enumFrom idx).map (fun p =>
        (outPath od p.1 p.2, extractedContent eng p.1 p.2))).reverse ++ st.fs.files
    ∧ st'.calls = st.calls ++ (tasks.enumFrom idx).map (fun p =>
        (p.1, p.2.start_page - 1, p.2.end_page - 1))
    ∧ st'.log = st.log ++ (tasks.enumFrom idx).map (fun p => taskLogLine p.1 p.2) := by
  intro tasks
  induction tasks with
  | nil =>
    intro idx st st' h
    have hst : st = st' := by
      have : (Except.ok st : Except (String × ExecState) ExecState) = .ok st' := h
      cases this
      rfl
    subst hst
    refine ⟨by simp [List.enumFrom], by simp [List.enumFrom], by simp [List.enumFrom]⟩
  | cons t rest ih =>
    intro idx st st' h
    rw [doSplitLoop_cons] at h
    cases hex : eng.extract idx (t.start_page - 1) (t.end_page - 1) with
    | error e =>
      rw [hex] at h
      exact Except.noConfusion h
    | ok content =>
      rw [hex] at h
      obtain ⟨h1, h2, h3⟩ := ih (idx + 1) _ st' h
      have hce : extractedContent eng idx t = content := by
        unfold extractedContent
        rw [hex]
        rfl
      refine ⟨?_, ?_, ?_⟩
      · rw [h1]
        simp only [List.enumFrom, List.map_cons, List.reverse_cons, FileSys.write,
          List.append_assoc, List.singleton_append, hce]
      · rw [h2]
        simp only [List.enumFrom, List.map_cons, List.append_assoc, List.singleton_append]
      · rw [h3]
        simp only [List.enumFrom, List.map_cons, List.append_assoc, List.singleton_append]

theorem doSplitLoop_state (eng : Engine) (od : String) :
    ∀ (tasks : List SplitTask) (idx : Nat) (st : ExecState),
    ∃ (newEntries : List (String × String)) (logTail : List String),
      (loopStateOf (doSplitLoop eng od idx tasks st)).fs.files
        = newEntries ++ st.fs.files
      ∧ (∀ e ∈ newEntries, ∃ i u, e.1 = outPath od i u)
      ∧ (loopStateOf (doSplitLoop eng od idx tasks st)).log = st.log ++ logTail := by
  intro tasks
  induction tasks with
  | nil =>
    intro idx st
    exact ⟨[], [], by simp [doSplitLoop, loopStateOf], by simp, by simp [doSplitLoop, loopStateOf]⟩
  | cons t rest ih =>
    intro idx st
    rw [doSplitLoop_cons]
    cases hex : eng.extract idx (t.start_page - 1) (t.end_page - 1) with
    | error e =>
      exact ⟨[], [], by simp [loopStateOf], by simp, by simp [loopStateOf]⟩
    | ok content =>
      obtain ⟨N, T, hf, hm, hl⟩ := ih (idx + 1)
        { fs := st.fs.write (outPath od idx t) content,
          log := st.log ++ [taskLogLine idx t],
          calls := st.calls ++ [(idx, t.start_page - 1, t.end_page - 1)] }
      refine ⟨N ++ [(outPath od idx t, content)], taskLogLine idx t :: T, ?_, ?_, ?_⟩
      · rw [hf]
        simp [FileSys.write, List.append_assoc]
      · intro e he
        rcases List.mem_append.mp he with h1 | h1
        · exact hm e h1
        · rcases List.mem_singleton.mp h1 with rfl
          exact ⟨idx, t, rfl⟩
      · rw [hl]
        simp [List.append_assoc]

theorem doSplitLoop_first_fail {eng : Engine} {od : String} :
    ∀ (pre : List SplitTask) (idx : Nat) (t : SplitTask) (post : List SplitTask)
      (err : String) (st : ExecState),
    (∀ pr ∈ pre.enumFrom idx,
      (eng.extract pr.1 (pr.2.start_page - 1) (pr.2.end_page - 1)).isOk = true) →
    eng.extract (idx + pre.length) (t.start_page - 1) (t.end_page - 1) = .error err →
    doSplitLoop eng od idx (pre ++ t :: post) st = .error (err,
      { fs := ⟨((pre.enumFrom idx).map (fun p =>
          (outPath od p.1 p.2, extractedContent eng p.1 p.2))).reverse ++ st.fs.files⟩
        log := st.log ++ (pre.enumFrom idx).map (fun p => taskLogLine p.1 p.2)
        calls := st.calls ++ (pre.enumFrom idx).map (fun p =>
            (p.1, p.2.start_page - 1, p.2.end_page - 1))
          ++ [(idx + pre.length, t.start_page - 1, t.end_page - 1)] }) := by
  intro pre
  induction pre with
  | nil =>
    intro idx t post err st _ hfail
    rw [List.nil_append, doSplitLoop_cons]
    rw [show idx + [].length = idx from rfl] at hfail
    rw [hfail]
    simp [List.enumFrom]
  | cons p rest ih =>
    intro idx t post err st hpre hfail
    have hp : (eng.extract idx (p.start_page - 1) (p.end_page - 1)).isOk = true :=
      hpre (idx, p) (by simp [List.enumFrom])
    cases hex : eng.extract idx (p.start_page - 1) (p.end_page - 1) with
    | error e =>
      rw [hex] at hp
      exact Bool.noConfusion hp
    | ok content =>
      rw [List.cons_append, doSplitLoop_cons, hex]
      have hidx : idx + (p :: rest).length = (idx + 1) + rest.length := by
        simp [List.length_cons]
        omega
      rw [hidx] at hfail
      show doSplitLoop eng od (idx + 1) (rest ++ t :: post)
        { fs := st.fs.write (outPath od idx p) content,
          log := st.log ++ [taskLogLine idx p],
          calls := st.calls ++ [(idx, p.start_page - 1, p.end_page - 1)] } = _
      rw [ih (idx + 1) t post err _
        (fun pr hm => hpre pr (by simp [List.enumFrom]; right; exact hm)) hfail]
      have hce : extractedContent eng idx p = content := by
        unfold extractedContent
        rw [hex]
        rfl
      simp only [Except.error.injEq, Prod.mk.injEq, ExecState.mk.injEq,
        FileSys.mk.injEq, FileSys.write]
      refine ⟨trivial, ?_, ?_, ?_⟩
      · simp only [List.enumFrom, List.map_cons, List.reverse_cons,
          List.append_assoc, List.singleton_append, hce]
      · simp only [List.enumFrom, List.map_cons, List.append_assoc,
          List.singleton_append]
      · simp only [List.enumFrom, List.map_cons, List.append_assoc,
          List.singleton_append, List.length_cons]
        rw [show idx + 1 + rest.length = idx + (rest.length + 1) from by omega]

/-! ## Helper lemmas: whole-run characterization -/

theorem _do_split_run_skip {eng : Engine} {src od : String}
    {tasks : List SplitTask} {st0 : ExecState}
    (hbp : st0.fs.pathExists (backupPath od src) = true) :
    _do_split eng src od tasks st0 =
      match doSplitLoop eng od 0 tasks
          ⟨st0.fs, st0.log ++ [outDirMsg od] ++ [skipLogMsg], st0.calls⟩ with
      | .ok st => .completed (st.pushLog (doneMsg tasks.length))
      | .error (e, st) => .failed e st := by
  unfold _do_split
  simp only [ExecState.pushLog]
  rw [if_pos hbp]

theorem _do_split_run_copy {eng : Engine} {src od : String}
    {tasks : List SplitTask} {st0 : ExecState} {c : String}
    (hbp : st0.fs.pathExists (backupPath od src) = false)
    (hread : st0.fs.read src = some c) :
    _do_split eng src od tasks st0 =
      match doSplitLoop eng od 0 tasks
          ⟨st0.fs.write (backupPath od src) c,
            st0.log ++ [outDirMsg od] ++ [backupLogMsg src], st0.calls⟩ with
      | .ok st => .completed (st.pushLog (doneMsg tasks.length))
      | .error (e, st) => .failed e st := by
  unfold _do_split
  simp only [ExecState.pushLog]
  rw [if_neg (by rw [hbp]; exact Bool.false_ne_true)]
  rw [hread]

/-! ## Claim theorems: task executor (C8, C7, C6) -/

/-- C8: in a completed run, the task at 0-based index `i` produces
exactly one journal write, at `output_dir/NN_name.pdf` with `NN` the
zero-padded `i+1` (minimum width two) and `name` the sanitized task
name, and the engine is asked to extract exactly the 0-based inclusive
range `[start-1, end-1]` of each task, in order. -/
theorem claim_C8_executor_naming_and_ranges :
    (∀ (eng : Engine) (src od : String) (tasks : List SplitTask)
        (st0 st' : ExecState),
      _do_split eng src od tasks st0 = .completed st' →
      st'.fs.files = ((tasks.enumFrom 0).map (fun p =>
          (outPath od p.1 p.2, extractedContent eng p.1 p.2))).reverse
        ++ backupWrites st0.fs src (backupPath od src) ++ st0.fs.files
      ∧ st'.calls = st0.calls ++ (tasks.enumFrom 0).map (fun p =>
          (p.1, p.2.start_page - 1, p.2.end_page - 1)))
    ∧ (∀ (od : String) (idx : Nat) (t : SplitTask), outPath od idx t
        = od ++ "/" ++ (pad2 (idx + 1) ++ "_" ++ sanitize_filename t.name ++ ".pdf"))
    ∧ (∀ k : Nat, 2 ≤ (pad2 k).data.length)
    ∧ (∀ k : Nat, k < 10 → (pad2 k).data.head? = some '0') := by
  refine ⟨?_, fun od idx t => rfl, pad2_length_ge_two, fun k h => pad2_head_zero h⟩
  · intro eng src od tasks st0 st' h
    by_cases hbp : st0.fs.pathExists (backupPath od src) = true
    · rw [_do_split_run_skip hbp] at h
      cases hloop : doSplitLoop eng od 0 tasks
          ⟨st0.fs, st0.log ++ [outDirMsg od] ++ [skipLogMsg], st0.calls⟩ with
      | ok st =>
        rw [hloop] at h
        obtain ⟨h1, h2, _⟩ := doSplitLoop_ok tasks 0 _ st hloop
        cases h
        constructor
        · rw [show (st.pushLog (doneMsg tasks.length)).fs = st.fs from rfl, h1]
          rw [backupWrites, if_pos hbp]
          simp
        · rw [show (st.pushLog (doneMsg tasks.length)).calls = st.calls from rfl, h2]
      | error p =>
        obtain ⟨e, st⟩ := p
        rw [hloop] at h
        exact RunResult.noConfusion h
    · have hbp2 : st0.fs.pathExists (backupPath od src) = false :=
        Bool.eq_false_iff.mpr hbp
      cases hread : st0.fs.read src with
      | none =>
        exfalso
        unfold _do_split at h
        simp only [ExecState.pushLog] at h
        rw [if_neg (by rw [hbp2]; exact Bool.false_ne_true), hread] at h
        exact RunResult.noConfusion h
      | some c =>
        rw [_do_split_run_copy hbp2 hread] at h
        cases hloop : doSplitLoop eng od 0 tasks
            ⟨st0.fs.write (backupPath od src) c,
              st0.log ++ [outDirMsg od] ++ [backupLogMsg src], st0.calls⟩ with
        | ok st =>
          rw [hloop] at h
          obtain ⟨h1, h2, _⟩ := doSplitLoop_ok tasks 0 _ st hloop
          cases h
          constructor
          · rw [show (st.pushLog (doneMsg tasks.length)).fs = st.fs from rfl, h1]
            rw [backupWrites, if_neg (by rw [hbp2]; exact Bool.false_ne_true), hread]
            simp [FileSys.write]
          · rw [show (st.pushLog (doneMsg tasks.length)).calls = st.calls from rfl, h2]
        | error p =>
          obtain ⟨e, st⟩ := p
          rw [hloop] at h
          exact RunResult.noConfusion h

/-- C8 witness: a two-task plan on a one-file filesystem with an
always-succeeding engine, run to completion; hypotheses evaluated
concretely. -/
theorem claim_C8_executor_naming_and_ranges_witness :
    (_do_split ⟨fun i _ _ => .ok (natRepr i)⟩ "/d/s.pdf" "/d/out"
        [⟨1, 3, "a"⟩, ⟨4, 5, "b?"⟩] ⟨⟨[("/d/s.pdf", "S")]⟩, [], []⟩).state.fs.files
      = (([(0, (⟨1, 3, "a"⟩ : SplitTask)), (1, (⟨4, 5, "b?"⟩ : SplitTask))].map
          (fun p => (outPath "/d/out" p.1 p.2,
            extractedContent ⟨fun i _ _ => .ok (natRepr i)⟩ p.1 p.2))).reverse
        ++ backupWrites ⟨[("/d/s.pdf", "S")]⟩ "/d/s.pdf" (backupPath "/d/out" "/d/s.pdf")
        ++ [("/d/s.pdf", "S")])
    ∧ (_do_split ⟨fun i _ _ => .ok (natRepr i)⟩ "/d/s.pdf" "/d/out"
        [⟨1, 3, "a"⟩, ⟨4, 5, "b?"⟩] ⟨⟨[("/d/s.pdf", "S")]⟩, [], []⟩).state.calls
      = [(0, 0, 2), (1, 3, 4)] := by
  have h := claim_C8_executor_naming_and_ranges.1
    ⟨fun i _ _ => .ok (natRepr i)⟩ "/d/s.pdf" "/d/out"
    [⟨1, 3, "a"⟩, ⟨4, 5, "b?"⟩] ⟨⟨[("/d/s.pdf", "S")]⟩, [], []⟩
    (_do_split ⟨fun i _ _ => .ok (natRepr i)⟩ "/d/s.pdf" "/d/out"
        [⟨1, 3, "a"⟩, ⟨4, 5, "b?"⟩] ⟨⟨[("/d/s.pdf", "S")]⟩, [], []⟩).state
    (by decide)
  constructor
  · rw [h.1]
    rfl
  · rw [h.2]
    rfl

/-- C7: if the engine calls for the first `i` tasks succeed and the call
for the task at 0-based index `i` fails with error `err`, the run is
reported failed with `err`, the engine is never asked about any later
task (and no task is retried), and the journal keeps exactly the output
files already written for the earlier tasks (plus the backup), untouched. -/
theorem claim_C7_executor_abort_on_failure :
    ∀ (eng : Engine) (src od : String) (st0 : ExecState)
      (pre : List SplitTask) (t : SplitTask) (post : List SplitTask)
      (err c : String),
    st0.fs.read src = some c →
    (∀ pr ∈ pre.enumFrom 0,
      (eng.extract pr.1 (pr.2.start_page - 1) (pr.2.end_page - 1)).isOk = true) →
    eng.extract pre.length (t.start_page - 1) (t.end_page - 1) = .error err →
    ∃ stf, _do_split eng src od (pre ++ t :: post) st0 = .failed err stf
      ∧ stf.fs.files = ((pre.enumFrom 0).map (fun p =>
          (outPath od p.1 p.2, extractedContent eng p.1 p.2))).reverse
        ++ backupWrites st0.fs src (backupPath od src) ++ st0.fs.files
      ∧ stf.calls = st0.calls ++ (pre.enumFrom 0).map (fun p =>
          (p.1, p.2.start_page - 1, p.2.end_page - 1))
        ++ [(pre.length, t.start_page - 1, t.end_page - 1)] := by
  intro eng src od st0 pre t post err c hread hpre hfail
  have hfail0 : eng.extract (0 + pre.length) (t.start_page - 1) (t.end_page - 1)
      = .error err := by rw [Nat.zero_add]; exact hfail
  by_cases hbp : st0.fs.pathExists (backupPath od src) = true
  · rw [_do_split_run_skip hbp]
    rw [doSplitLoop_first_fail pre 0 t post err
      ⟨st0.fs, st0.log ++ [outDirMsg od] ++ [skipLogMsg], st0.calls⟩ hpre hfail0]
    refine ⟨_, rfl, ?_, ?_⟩
    · rw [backupWrites, if_pos hbp]
      simp
    · simp
  · have hbp2 : st0.fs.pathExists (backupPath od src) = false :=
      Bool.eq_false_iff.mpr hbp
    rw [_do_split_run_copy hbp2 hread]
    rw [doSplitLoop_first_fail pre 0 t post err
      ⟨st0.fs.write (backupPath od src) c,
        st0.log ++ [outDirMsg od] ++ [backupLogMsg src], st0.calls⟩ hpre hfail0]
    refine ⟨_, rfl, ?_, ?_⟩
    · rw [backupWrites, if_neg (by rw [hbp2]; exact Bool.false_ne_true), hread]
      simp [FileSys.write]
    · simp

/-- C7 witness: a two-task plan whose second engine call fails; the run
fails with that error after exactly two calls and one written output. -/
theorem claim_C7_executor_abort_on_failure_witness :
    ∃ stf, _do_split ⟨fun i _ _ => if i = 0 then .ok "D0" else .error "boom"⟩
        "/d/s.pdf" "/d/out" ([⟨1, 2, "a"⟩] ++ (⟨3, 4, "b"⟩ : SplitTask) :: [])
        ⟨⟨[("/d/s.pdf", "S")]⟩, [], []⟩ = .failed "boom" stf
      ∧ stf.fs.files = (([(0, (⟨1, 2, "a"⟩ : SplitTask))].map (fun p =>
          (outPath "/d/out" p.1 p.2,
            extractedContent ⟨fun i _ _ => if i = 0 then .ok "D0" else .error "boom"⟩
              p.1 p.2))).reverse
        ++ backupWrites ⟨[("/d/s.pdf", "S")]⟩ "/d/s.pdf" (backupPath "/d/out" "/d/s.pdf")
        ++ [("/d/s.pdf", "S")])
      ∧ stf.calls = [] ++ [(0, 0, 1)] ++ [(1, 2, 3)] := by
  have h := claim_C7_executor_abort_on_failure
    ⟨fun i _ _ => if i = 0 then .ok "D0" else .error "boom"⟩
    "/d/s.pdf" "/d/out" ⟨⟨[("/d/s.pdf", "S")]⟩, [], []⟩
    [⟨1, 2, "a"⟩] ⟨3, 4, "b"⟩ [] "boom" "S"
    (by decide) (by decide) (by decide)
  obtain ⟨stf, h1, h2, h3⟩ := h
  exact ⟨stf, h1, by rw [h2]; rfl, by rw [h3]; rfl⟩

theorem _do_split_state (eng : Engine) (src od : String)
    (tasks : List SplitTask) (st0 : ExecState) (c : String)
    (h : st0.fs.pathExists (backupPath od src) = true ∨ st0.fs.read src = some c) :
    ∃ (newEntries : List (String × String)) (logTail : List String),
      (_do_split eng src od tasks st0).state.fs.files
        = newEntries ++ backupWrites st0.fs src (backupPath od src) ++ st0.fs.files
      ∧ (∀ e ∈ newEntries, ∃ i u, e.1 = outPath od i u)
      ∧ (_do_split eng src od tasks st0).state.log
        = st0.log ++ outDirMsg od ::
            (if st0.fs.pathExists (backupPath od src) = true then skipLogMsg
             else backupLogMsg src) :: logTail := by
  by_cases hbp : st0.fs.pathExists (backupPath od src) = true
  · rw [_do_split_run_skip hbp]
    obtain ⟨N, T, hf, hm, hl⟩ := doSplitLoop_state eng od tasks 0
      ⟨st0.fs, st0.log ++ [outDirMsg od] ++ [skipLogMsg], st0.calls⟩
    cases hloop : doSplitLoop eng od 0 tasks
        ⟨st0.fs, st0.log ++ [outDirMsg od] ++ [skipLogMsg], st0.calls⟩ with
    | ok st =>
      rw [hloop] at hf hl
      simp only [loopStateOf] at hf hl
      refine ⟨N, T ++ [doneMsg tasks.length], ?_, hm, ?_⟩
      · rw [show (RunResult.completed (st.pushLog (doneMsg tasks.length))).state.fs
            = st.fs from rfl, hf]
        rw [backupWrites, if_pos hbp]
        simp
      · rw [show (RunResult.completed (st.pushLog (doneMsg tasks.length))).state.log
            = st.log ++ [doneMsg tasks.length] from rfl, hl]
        rw [if_pos hbp]
        simp
    | error p =>
      obtain ⟨e, st⟩ := p
      rw [hloop] at hf hl
      simp only [loopStateOf] at hf hl
      refine ⟨N, T, ?_, hm, ?_⟩
      · rw [show (RunResult.failed e st).state.fs = st.fs from rfl, hf]
        rw [backupWrites, if_pos hbp]
        simp
      · rw [show (RunResult.failed e st).state.log = st.log from rfl, hl]
        rw [if_pos hbp]
        simp
  · have hbp2 : st0.fs.pathExists (backupPath od src) = false :=
      Bool.eq_false_iff.mpr hbp
    have hread : st0.fs.read src = some c := by
      rcases h with h | h
      · exact absurd h hbp
      · exact h
    rw [_do_split_run_copy hbp2 hread]
    obtain ⟨N, T, hf, hm, hl⟩ := doSplitLoop_state eng od tasks 0
      ⟨st0.fs.write (backupPath od src) c,
        st0.log ++ [outDirMsg od] ++ [backupLogMsg src], st0.calls⟩
    cases hloop : doSplitLoop eng od 0 tasks
        ⟨st0.fs.write (backupPath od src) c,
          st0.log ++ [outDirMsg od] ++ [backupLogMsg src], st0.calls⟩ with
    | ok st =>
      rw [hloop] at hf hl
      simp only [loopStateOf] at hf hl
      refine ⟨N, T ++ [doneMsg tasks.length], ?_, hm, ?_⟩
      · rw [show (RunResult.completed (st.pushLog (doneMsg tasks.length))).state.fs
            = st.fs from rfl, hf]
        rw [backupWrites, if_neg (by rw [hbp2]; exact Bool.false_ne_true), hread]
        simp [FileSys.write]
      · rw [show (RunResult.completed (st.pushLog (doneMsg tasks.length))).state.log
            = st.log ++ [doneMsg tasks.length] from rfl, hl]
        rw [if_neg (by rw [hbp2]; exact Bool.false_ne_true)]
        simp
    | error p =>
      obtain ⟨e, st⟩ := p
      rw [hloop] at hf hl
      simp only [loopStateOf] at hf hl
      refine ⟨N, T, ?_, hm, ?_⟩
      · rw [show (RunResult.failed e st).state.fs = st.fs from rfl, hf]
        rw [backupWrites, if_neg (by rw [hbp2]; exact Bool.false_ne_true), hread]
        simp [FileSys.write]
      · rw [show (RunResult.failed e st).state.log = st.log from rfl, hl]
        rw [if_neg (by rw [hbp2]; exact Bool.false_ne_true)]
        simp

/-- C6: when no backup exists yet, a run copies the source to
`output_dir/备份/<basename>` exactly once (journal write count rises by
one, the backup holds the source bytes, and the backup log line is
emitted); a second run against the same output directory finds the file,
skips the copy (write count unchanged, content still the source bytes)
and logs the skip. -/
theorem claim_C6_backup_copied_exactly_once :
    ∀ (eng1 eng2 : Engine) (src od : String) (tasks1 tasks2 : List SplitTask)
      (st0 st1 st2 : ExecState) (c : String),
    st0.fs.read src = some c →
    st0.fs.pathExists (backupPath od src) = false →
    st1 = (_do_split eng1 src od tasks1 st0).state →
    st2 = (_do_split eng2 src od tasks2 st1).state →
    st1.fs.read (backupPath od src) = some c
    ∧ countWrites (backupPath od src) st1.fs
        = countWrites (backupPath od src) st0.fs + 1
    ∧ (∃ tail, st1.log = st0.log ++ outDirMsg od :: backupLogMsg src :: tail)
    ∧ st2.fs.read (backupPath od src) = some c
    ∧ countWrites (backupPath od src) st2.fs = countWrites (backupPath od src) st1.fs
    ∧ (∃ tail, st2.log = st1.log ++ outDirMsg od :: skipLogMsg :: tail) := by
  intro eng1 eng2 src od tasks1 tasks2 st0 st1 st2 c hread hbp hst1 hst2
  obtain ⟨N1, T1, hf1, hm1, hl1⟩ :=
    _do_split_state eng1 src od tasks1 st0 c (Or.inr hread)
  rw [← hst1] at hf1 hl1
  have hN1 : ∀ e ∈ N1, ¬e.1 = backupPath od src := by
    intro e he heq
    obtain ⟨i, u, hiu⟩ := hm1 e he
    rw [hiu] at heq
    exact outPath_ne_backupPath od i u src heq
  have hbw1 : backupWrites st0.fs src (backupPath od src)
      = [(backupPath od src, c)] := by
    rw [backupWrites, if_neg (by rw [hbp]; exact Bool.false_ne_true), hread]
    rfl
  rw [hbw1] at hf1
  have hread1 : st1.fs.read (backupPath od src) = some c := by
    show List.lookup (backupPath od src) st1.fs.files = some c
    rw [hf1, List.append_assoc, lookup_append_of_not_mem hN1]
    simp [List.lookup]
  have hcount1 : countWrites (backupPath od src) st1.fs
      = countWrites (backupPath od src) st0.fs + 1 := by
    show st1.fs.files.countP (fun e => e.1 == backupPath od src)
      = st0.fs.files.countP (fun e => e.1 == backupPath od src) + 1
    rw [hf1, List.countP_append, List.countP_append,
      countP_eq_zero_of_not_mem hN1]
    simp
    omega
  have hlog1 : ∃ tail, st1.log
      = st0.log ++ outDirMsg od :: backupLogMsg src :: tail := by
    refine ⟨T1, ?_⟩
    rw [hl1, if_neg (by rw [hbp]; exact Bool.false_ne_true)]
  have hbp1 : st1.fs.pathExists (backupPath od src) = true := by
    show (st1.fs.read (backupPath od src)).isSome = true
    rw [hread1]
    rfl
  obtain ⟨N2, T2, hf2, hm2, hl2⟩ :=
    _do_split_state eng2 src od tasks2 st1 c (Or.inl hbp1)
  rw [← hst2] at hf2 hl2
  have hN2 : ∀ e ∈ N2, ¬e.1 = backupPath od src := by
    intro e he heq
    obtain ⟨i, u, hiu⟩ := hm2 e he
    rw [hiu] at heq
    exact outPath_ne_backupPath od i u src heq
  have hbw2 : backupWrites st1.fs src (backupPath od src) = [] := by
    rw [backupWrites, if_pos hbp1]
  rw [hbw2] at hf2
  refine ⟨hread1, hcount1, hlog1, ?_, ?_, ?_⟩
  · show List.lookup (backupPath od src) st2.fs.files = some c
    rw [hf2, List.append_nil, lookup_append_of_not_mem hN2]
    exact hread1
  · show st2.fs.files.countP (fun e => e.1 == backupPath od src)
      = st1.fs.files.countP (fun e => e.1 == backupPath od src)
    rw [hf2, List.append_nil, List.countP_append,
      countP_eq_zero_of_not_mem hN2]
    omega
  · refine ⟨T2, ?_⟩
    rw [hl2, if_pos hbp1]

/-- C6 witness: a one-file filesystem, empty plans, two consecutive runs;
hypotheses evaluated concretely. -/
theorem claim_C6_backup_copied_exactly_once_witness :
    ((_do_split ⟨fun _ _ _ => .ok "D"⟩ "/d/s.pdf" "/d/out" []
        ⟨⟨[("/d/s.pdf", "S")]⟩, [], []⟩).state.fs.read
          (backupPath "/d/out" "/d/s.pdf") = some "S")
    ∧ countWrites (backupPath "/d/out" "/d/s.pdf")
        (_do_split ⟨fun _ _ _ => .ok "D"⟩ "/d/s.pdf" "/d/out" []
          ⟨⟨[("/d/s.pdf", "S")]⟩, [], []⟩).state.fs
      = countWrites (backupPath "/d/out" "/d/s.pdf")
          (⟨⟨[("/d/s.pdf", "S")]⟩, [], []⟩ : ExecState).fs + 1
    ∧ countWrites (backupPath "/d/out" "/d/s.pdf")
        (_do_split ⟨fun _ _ _ => .error "x"⟩ "/d/s.pdf" "/d/out" []
          (_do_split ⟨fun _ _ _ => .ok "D"⟩ "/d/s.pdf" "/d/out" []
            ⟨⟨[("/d/s.pdf", "S")]⟩, [], []⟩).state).state.fs
      = countWrites (backupPath "/d/out" "/d/s.pdf")
          (_do_split ⟨fun _ _ _ => .ok "D"⟩ "/d/s.pdf" "/d/out" []
            ⟨⟨[("/d/s.pdf", "S")]⟩, [], []⟩).state.fs := by
  have h := claim_C6_backup_copied_exactly_once
    ⟨fun _ _ _ => .ok "D"⟩ ⟨fun _ _ _ => .error "x"⟩ "/d/s.pdf" "/d/out" [] []
    ⟨⟨[("/d/s.pdf", "S")]⟩, [], []⟩
    (_do_split ⟨fun _ _ _ => .ok "D"⟩ "/d/s.pdf" "/d/out" []
      ⟨⟨[("/d/s.pdf", "S")]⟩, [], []⟩).state
    (_do_split ⟨fun _ _ _ => .error "x"⟩ "/d/s.pdf" "/d/out" []
      (_do_split ⟨fun _ _ _ => .ok "D"⟩ "/d/s.pdf" "/d/out" []
        ⟨⟨[("/d/s.pdf", "S")]⟩, [], []⟩).state).state
    "S" (by decide) (by decide) rfl rfl
  exact ⟨h.1, h.2.1, h.2.2.2.2.1⟩

